import Mathlib

/-!
Verification development for the metrics-dash worker (src/index.js).

The JavaScript source is shallowly embedded: strings are Lean `String`s
(lists of characters), JS objects used as string-keyed maps become
association lists with first-insertion key order and overwrite-in-place,
and `Number(...)` values are modelled by `JSNum` (NaN, signed infinity,
or an exact rational; IEEE-754 rounding of decimal literals is abstracted
to exact rational arithmetic, which agrees with the source on every value
any claim mentions).  Regular-expression tests are embedded as executable
character-list matchers with the same match semantics as the anchored or
unanchored pattern they translate.
-/

namespace MetricsDash

/-- The character set matched by JavaScript `\s` and removed by
`String.prototype.trim`: whitespace plus line terminators. -/
def isJsWs (c : Char) : Bool :=
  c == ' ' || c == '\t' || c == '\n' || c == '\r' ||
  c == Char.ofNat 0x0b || c == Char.ofNat 0x0c ||
  c == Char.ofNat 0xa0 || c == Char.ofNat 0x1680 ||
  (Char.ofNat 0x2000 ≤ c && c ≤ Char.ofNat 0x200a) ||
  c == Char.ofNat 0x2028 || c == Char.ofNat 0x2029 ||
  c == Char.ofNat 0x202f || c == Char.ofNat 0x205f ||
  c == Char.ofNat 0x3000 || c == Char.ofNat 0xfeff

/-- Characters matched by `.` in a JavaScript regex without the `s` flag:
everything except line terminators. -/
def isRegexDot (c : Char) : Bool :=
  !(c == '\n' || c == '\r' || c == Char.ofNat 0x2028 || c == Char.ofNat 0x2029)

/-- First character of the identifier class `[a-zA-Z_:]`. -/
def isIdentStart (c : Char) : Bool := c.isAlpha || c == '_' || c == ':'

/-- Continuation character of the identifier class `[a-zA-Z0-9_:]`. -/
def isIdentChar (c : Char) : Bool := c.isAlphanum || c == '_' || c == ':'

/-- Characters allowed in the capture `[^[{]+` of the name/labels regex. -/
def isNameChar (c : Char) : Bool := !(c == '[' || c == '{')

/-- `trim` on a character list, per the JS whitespace set. -/
def jsTrimChars (l : List Char) : List Char :=
  ((l.dropWhile isJsWs).reverse.dropWhile isJsWs).reverse

/-- JavaScript `String.prototype.trim`. -/
def jsTrim (s : String) : String := String.mk (jsTrimChars s.data)

/-- Split a character list at every occurrence of `c`
(JS `String.prototype.split` with a single-character separator:
boundary separators produce empty fields). -/
def splitOnChar (c : Char) (l : List Char) : List (List Char) :=
  l.foldr
    (fun ch acc =>
      if ch == c then [] :: acc
      else
        match acc with
        | h :: t => (ch :: h) :: t
        | [] => [[ch]])
    [[]]

/-- JS `data.split('\n')`. -/
def jsSplitLines (s : String) : List String :=
  (splitOnChar '\n' s.data).map String.mk

/-- Worker for `split(/\s+/)`.  The second argument is `some acc` while a
field is being accumulated (in reverse) and `none` just after a whitespace
run, whose remaining whitespace is still being skipped. -/
def jsSplitWsM : List Char → Option (List Char) → List String
  | [], some acc => [String.mk acc.reverse]
  | [], none => [""]
  | c :: cs, some acc =>
    if isJsWs c then String.mk acc.reverse :: jsSplitWsM cs none
    else jsSplitWsM cs (some (c :: acc))
  | c :: cs, none =>
    if isJsWs c then jsSplitWsM cs none
    else jsSplitWsM cs (some [c])

/-- JS `line.split(/\s+/)`: split on maximal whitespace runs; a leading or
trailing run contributes an empty field. -/
def jsSplitWs (s : String) : List String := jsSplitWsM s.data (some [])

/-- JS `line.startsWith('#')`. -/
def jsStartsWithHash (line : String) : Bool :=
  match line.data with
  | c :: _ => c == '#'
  | [] => false

/-- JS `s.includes(pat)`: substring test. -/
def strIncludes (s pat : String) : Bool :=
  s.data.tails.any (fun t => pat.data.isPrefixOf t)

/-- Remove the first (leftmost) occurrence of `pat`, if any. -/
def removeFirstAux (pat : List Char) : List Char → List Char
  | [] => []
  | c :: cs =>
    if pat.isPrefixOf (c :: cs) then (c :: cs).drop pat.length
    else c :: removeFirstAux pat cs

/-- JS `s.replace(pat, '')` with a plain-string pattern: deletes the first
occurrence of `pat`, or returns `s` unchanged when absent. -/
def jsRemoveFirst (s pat : String) : String :=
  String.mk (removeFirstAux pat.data s.data)

/-- Suffix test on strings. -/
def strEndsWith (s suf : String) : Bool :=
  suf.data.reverse.isPrefixOf s.data.reverse

/-- JS `name.replace(/_(sum|count)$/, '')`: strip a trailing `_sum` or
`_count`; a name that merely contains the substring elsewhere is unchanged. -/
def stripHistSuffix (name : String) : String :=
  if strEndsWith name "_sum" then String.mk (name.data.take (name.data.length - 4))
  else if strEndsWith name "_count" then String.mk (name.data.take (name.data.length - 6))
  else name

/-- The double-quote character. -/
def quoteChar : Char := Char.ofNat 34

/-- JS `s.replace(/"/g, '')`: delete every double quote. -/
def stripQuotes (s : String) : String :=
  String.mk (s.data.filter (fun c => !(c == quoteChar)))

/-- UTF-16 code units of a character (JS strings are UTF-16). -/
def utf16Units (c : Char) : List Nat :=
  let n := c.toNat
  if n < 0x10000 then [n]
  else [0xd800 + (n - 0x10000) / 0x400, 0xdc00 + (n - 0x10000) % 0x400]

/-- UTF-16 code-unit sequence of a string. -/
def utf16 (s : String) : List Nat := (s.data.map utf16Units).flatten

/-- Lexicographic order on code-unit sequences. -/
def lexLeNat : List Nat → List Nat → Bool
  | [], _ => true
  | _ :: _, [] => false
  | a :: as, b :: bs =>
    if a < b then true else if b < a then false else lexLeNat as bs

/-- The default comparison used by JS `Array.prototype.sort()` on strings:
ascending by UTF-16 code units. -/
def jsLe (a b : String) : Bool := lexLeNat (utf16 a) (utf16 b)

/-- Insertion into a `jsLe`-ascending list. -/
def orderedInsertJs (a : String) : List String → List String
  | [] => [a]
  | b :: l => if jsLe a b then a :: b :: l else b :: orderedInsertJs a l

/-- JS `keys.sort()`: ascending string sort. -/
def jsSortAsc (l : List String) : List String := l.foldr orderedInsertJs []

/-- JS `keys.sort().reverse()`: descending lexicographic string sort. -/
def jsSortDesc (l : List String) : List String := (jsSortAsc l).reverse

/-! ### JS objects as string-keyed maps -/

/-- Property lookup on a JS object modelled as an association list. -/
def objGet (m : List (String × α)) (k : String) : Option α :=
  match m.find? (fun p => p.1 == k) with
  | some p => some p.2
  | none => none

/-- Property assignment `m[k] = v`: overwrite in place when the key exists,
otherwise append (JS objects keep first-insertion key order). -/
def objInsert (m : List (String × α)) (k : String) (v : α) : List (String × α) :=
  if m.any (fun p => p.1 == k) then m.map (fun p => if p.1 == k then (k, v) else p)
  else m ++ [(k, v)]

/-- Key removal (used for the KV store's `delete`). -/
def objDelete (m : List (String × α)) (k : String) : List (String × α) :=
  m.filter (fun p => !(p.1 == k))

/-- The list of keys of an object / KV store. -/
def objKeys (m : List (String × α)) : List String := m.map (fun p => p.1)

/-! ### JS `Number(...)` conversion

Modelled exactly over the rationals: `JSNum.num q` stands for the float64
whose mathematical value JS would compute before rounding.  Rounding is
abstracted away; on the small integers appearing in the claims the two
agree exactly. -/

/-- A JavaScript number as produced by `Number(string)`. -/
inductive JSNum where
  | nan : JSNum
  | inf : Bool → JSNum
  | num : Rat → JSNum
deriving DecidableEq, Repr

/-- Value of a decimal digit list. -/
def digitsToNat (ds : List Char) : Nat :=
  ds.foldl (fun n c => 10 * n + (c.toNat - 48)) 0

/-- Value of `intDs.fds` as an exact rational.  Built with `Rat.divInt`
over integer arithmetic (the field operations on `Rat` are irreducible
and would block kernel evaluation). -/
def decValue (intDs fds : List Char) : Rat :=
  Rat.divInt ((digitsToNat intDs * 10 ^ fds.length + digitsToNat fds : Nat) : Int)
    ((10 ^ fds.length : Nat) : Int)

/-- `q` scaled by `10 ^ e`, again via `Rat.divInt`. -/
def ratScale10 (q : Rat) (e : Int) : Rat :=
  match e with
  | Int.ofNat n => Rat.divInt (q.num * ((10 ^ n : Nat) : Int)) (q.den : Int)
  | Int.negSucc n => Rat.divInt q.num ((q.den * 10 ^ (n + 1) : Nat) : Int)

/-- Parse an optional exponent part `[eE][+-]?digits` that must consume the
whole remainder, scaling `q` accordingly. -/
def parseExpPart (q : Rat) (l : List Char) : Option Rat :=
  match l with
  | [] => some q
  | c :: r =>
    if c == 'e' || c == 'E' then
      let signed : Bool × List Char :=
        match r with
        | s :: t => if s == '+' then (false, t) else if s == '-' then (true, t) else (false, r)
        | [] => (false, r)
      let ds := signed.2.takeWhile Char.isDigit
      if ds.isEmpty || !(signed.2.dropWhile Char.isDigit).isEmpty then none
      else
        some (ratScale10 q (if signed.1 then -(digitsToNat ds : Int) else (digitsToNat ds : Int)))
    else none

/-- ECMAScript `StrUnsignedDecimalLiteral` (without `Infinity`):
`digits ['.' digits?] exp?` or `'.' digits exp?`. -/
def parseUnsignedDec (u : List Char) : Option Rat :=
  let intDs := u.takeWhile Char.isDigit
  let r1 := u.dropWhile Char.isDigit
  match r1 with
  | '.' :: r2 =>
    let fds := r2.takeWhile Char.isDigit
    if intDs.isEmpty && fds.isEmpty then none
    else parseExpPart (decValue intDs fds) (r2.dropWhile Char.isDigit)
  | _ => if intDs.isEmpty then none else parseExpPart (decValue intDs []) r1

/-- The letters of `Infinity`. -/
def infinityChars : List Char := ['I', 'n', 'f', 'i', 'n', 'i', 't', 'y']

/-- Signed decimal literal or signed `Infinity`; anything else is NaN. -/
def parseSignedDec (t : List Char) : JSNum :=
  let signed : Bool × List Char :=
    match t with
    | c :: r => if c == '+' then (false, r) else if c == '-' then (true, r) else (false, t)
    | [] => (false, t)
  if signed.2 = infinityChars then JSNum.inf signed.1
  else
    match parseUnsignedDec signed.2 with
    | some q => JSNum.num (if signed.1 then -q else q)
    | none => JSNum.nan

/-- Value of a hex digit, if any. -/
def hexDigitVal (c : Char) : Option Nat :=
  if c.isDigit then some (c.toNat - 48)
  else if 'a' ≤ c && c ≤ 'f' then some (c.toNat - 87)
  else if 'A' ≤ c && c ≤ 'F' then some (c.toNat - 55)
  else none

/-- Parse a non-empty digit string in the given radix. -/
def parseRadix (base : Nat) (l : List Char) : Option Nat :=
  if l.isEmpty then none
  else
    l.foldl
      (fun acc c =>
        match acc, hexDigitVal c with
        | some n, some d => if d < base then some (base * n + d) else none
        | _, _ => none)
      (some 0)

/-- JS `Number(s)`: trim, empty string is 0, `0x`/`0o`/`0b` literals,
otherwise a signed decimal/scientific literal or `Infinity`; NaN on
anything else. -/
def jsNumber (s : String) : JSNum :=
  let t := jsTrimChars s.data
  match t with
  | [] => JSNum.num 0
  | '0' :: c :: rest =>
    if c == 'x' || c == 'X' then
      match parseRadix 16 rest with
      | some n => JSNum.num (Rat.divInt (n : Int) 1)
      | none => JSNum.nan
    else if c == 'o' || c == 'O' then
      match parseRadix 8 rest with
      | some n => JSNum.num (Rat.divInt (n : Int) 1)
      | none => JSNum.nan
    else if c == 'b' || c == 'B' then
      match parseRadix 2 rest with
      | some n => JSNum.num (Rat.divInt (n : Int) 1)
      | none => JSNum.nan
    else parseSignedDec t
  | _ => parseSignedDec t

/-! ### The parsed-metrics data model (src/index.js lines 55-88) -/

/-- A gauge/counter sample `{ value, labels }`.  A label value is `none`
when the JS code stored `undefined` (a `key` with no `=value` part). -/
structure MetricSample where
  value : JSNum
  labels : List (String × Option String)
deriving DecidableEq, Repr

/-- One histogram bucket `{ le, count }`; `le` is `labels.le`, which is
`undefined` (`none`) when the line carried no `le` label. -/
structure HistBucket where
  le : Option String
  count : JSNum
deriving DecidableEq, Repr

/-- A histogram accumulator `{ buckets, sum?, count? }`. -/
structure HistogramAcc where
  buckets : List HistBucket
  sum : Option JSNum := none
  count : Option JSNum := none
deriving DecidableEq, Repr

/-- The result of `parsePrometheusMetrics`. -/
structure ParsedMetrics where
  gauges : List (String × MetricSample) := []
  counters : List (String × MetricSample) := []
  histograms : List (String × HistogramAcc) := []
deriving DecidableEq, Repr

/-- The unanchored match `nameLabels.match(/([^[{]+)(?:{([^}]+)})?/)`:
returns the captured name and the optional label-block capture, or `none`
when no character outside `[`/`{` occurs. -/
def jsNameMatch (s : String) : Option (String × Option String) :=
  let l := s.data.dropWhile (fun c => !(isNameChar c))
  match l.takeWhile isNameChar with
  | [] => none
  | nm =>
    let rest := l.dropWhile isNameChar
    match rest with
    | '{' :: r2 =>
      let inner := r2.takeWhile (fun c => !(c == '}'))
      let r3 := r2.dropWhile (fun c => !(c == '}'))
      match inner, r3 with
      | _ :: _, '}' :: _ => some (String.mk nm, some (String.mk inner))
      | _, _ => some (String.mk nm, none)
    | _ => some (String.mk nm, none)

/-- One `key="value"` item of a label block: split on `=`, strip quotes
from each part; a part-less key gets an `undefined` value. -/
def labelPair (l : String) : String × Option String :=
  match (splitOnChar '=' l.data).map (fun p => stripQuotes (String.mk p)) with
  | [] => ("", none)
  | [k] => (k, none)
  | k :: v :: _ => (k, some v)

/-- `Object.fromEntries(labelsStr.split(',').map(...))`: later duplicate
keys overwrite earlier ones. -/
def parseLabels (labelsStr : String) : List (String × Option String) :=
  ((splitOnChar ',' labelsStr.data).map (fun p => labelPair (String.mk p))).foldl
    (fun m kv => objInsert m kv.1 kv.2) []

/-- JS `labels.le`: `undefined` both when the key is absent and when it was
stored as `undefined`. -/
def labelGet (m : List (String × Option String)) (k : String) : Option String :=
  match objGet m k with
  | some v => v
  | none => none

/-- The label mapping of a line: parsed from the captured label block,
empty when the block is absent. -/
def labelsOf : Option String → List (String × Option String)
  | some ls => parseLabels ls
  | none => []

/-- The histogram entry under `baseName`, auto-created as `{ buckets: [] }`
when absent (the `if (!metrics.histograms[baseName])` initialisation). -/
def histAt (m : ParsedMetrics) (baseName : String) : HistogramAcc :=
  (objGet m.histograms baseName).getD { buckets := [] }

/-- `histograms[baseName].buckets.push({le, count})`. -/
def bucketAppend (h : HistogramAcc) (le : Option String) (c : JSNum) : HistogramAcc :=
  { h with buckets := h.buckets ++ [{ le := le, count := c }] }

/-- `histograms[baseName].sum = v`. -/
def setHistSum (h : HistogramAcc) (v : JSNum) : HistogramAcc := { h with sum := some v }

/-- `histograms[baseName].count = v`. -/
def setHistCount (h : HistogramAcc) (v : JSNum) : HistogramAcc := { h with count := some v }

/-- The suffix-dispatch of one parsed line (lines 72-85): `_bucket` by
substring, then `_sum`/`_count` by substring (base name stripped only when
the suffix is final), then counter-vs-gauge by the `total`/`errors`
substring heuristic. -/
def dispatch (m : ParsedMetrics) (name : String) (labelsStr : Option String)
    (value : String) : ParsedMetrics :=
  if strIncludes name "_bucket" then
    let baseName := jsRemoveFirst name "_bucket"
    let h2 := bucketAppend (histAt m baseName) (labelGet (labelsOf labelsStr) "le") (jsNumber value)
    { m with histograms := objInsert m.histograms baseName h2 }
  else if strIncludes name "_sum" || strIncludes name "_count" then
    let baseName := stripHistSuffix name
    let h2 :=
      if strIncludes name "_sum" then setHistSum (histAt m baseName) (jsNumber value)
      else setHistCount (histAt m baseName) (jsNumber value)
    { m with histograms := objInsert m.histograms baseName h2 }
  else if strIncludes name "total" || strIncludes name "errors" then
    { m with counters := objInsert m.counters name { value := jsNumber value, labels := labelsOf labelsStr } }
  else
    { m with gauges := objInsert m.gauges name { value := jsNumber value, labels := labelsOf labelsStr } }

/-- Processing of a single line of the metrics text: skip comments, skip
lines without both a name/labels token and a value token, skip lines whose
name/labels token has no name character, else dispatch. -/
def processLine (m : ParsedMetrics) (line : String) : ParsedMetrics :=
  if jsStartsWithHash line then m
  else
    match jsSplitWs line with
    | nameLabels :: value :: _ =>
      if nameLabels == "" || value == "" then m
      else
        match jsNameMatch nameLabels with
        | none => m
        | some (name, labelsStr) => dispatch m name labelsStr value
    | _ => m

/-- `parsePrometheusMetrics(data)`: fold `processLine` over the lines of
`data` starting from the empty model. -/
def parsePrometheusMetrics (data : String) : ParsedMetrics :=
  (jsSplitLines data).foldl processLine {}

/-! ### The format validator (src/index.js lines 90-96) -/

/-- Anchored match of `-?\d+(\.\d+)?([eE][+-]?\d+)?` against the whole
remainder. -/
def matchNum (l : List Char) : Bool :=
  let l1 := match l with | '-' :: t => t | _ => l
  let ds := l1.takeWhile Char.isDigit
  let r := l1.dropWhile Char.isDigit
  if ds.isEmpty then false
  else
    let fr : Option (List Char) :=
      match r with
      | '.' :: r2 =>
        if (r2.takeWhile Char.isDigit).isEmpty then none
        else some (r2.dropWhile Char.isDigit)
      | _ => some r
    match fr with
    | none => false
    | some r3 =>
      match r3 with
      | [] => true
      | c :: r4 =>
        (c == 'e' || c == 'E') &&
          (let r5 := match r4 with
            | s :: t => if s == '+' || s == '-' then t else r4
            | [] => r4
           !(r5.takeWhile Char.isDigit).isEmpty && (r5.dropWhile Char.isDigit).isEmpty)

/-- Anchored match of `\s+` followed by the number pattern up to the end. -/
def matchWsNum (l : List Char) : Bool :=
  if (l.takeWhile isJsWs).isEmpty then false
  else matchNum (l.dropWhile isJsWs)

/-- Match of `({.*})?\s+-?\d+(\.\d+)?([eE][+-]?\d+)?$` after the greedy
identifier run: a present label group needs some closing brace position
whose interior consists of `.`-matchable characters. -/
def matchAfterIdent (l : List Char) : Bool :=
  match l with
  | '{' :: r2 =>
    (List.range r2.length).any (fun i =>
      decide (r2.get? i = some '}') && (r2.take i).all isRegexDot &&
        matchWsNum (r2.drop (i + 1)))
  | _ => matchWsNum l

/-- The anchored test
`/^[a-zA-Z_:][a-zA-Z0-9_:]*({.*})?\s+-?\d+(\.\d+)?([eE][+-]?\d+)?$/`. -/
def metricLineTest (line : String) : Bool :=
  match line.data with
  | [] => false
  | c :: rest => isIdentStart c && matchAfterIdent (rest.dropWhile isIdentChar)

/-- `isValidPrometheusMetrics(data)`: trim the whole text, split into
lines, accept when some line starts with `#` or its trimmed form passes
the metric-line regex. -/
def isValidPrometheusMetrics (data : String) : Bool :=
  (jsSplitLines (jsTrim data)).any
    (fun line => jsStartsWithHash line || metricLineTest (jsTrim line))

/-- Modelled from the spec's words for claim C6 (the validator as the
claim literally states it, with no trimming anywhere): some line of the
raw input starts with `#` or itself matches the metric-line pattern. -/
def claimIsValid (s : String) : Bool :=
  (jsSplitLines s).any (fun line => jsStartsWithHash line || metricLineTest line)

/-! ### The snapshot store and request handler (src/index.js lines 5-53) -/

/-- The KV backend: keys mapped to the stored envelope, modelled as the
pair `(data, timestamp)` that `JSON.stringify({data, timestamp})`
serialises. -/
abbrev SnapshotStore := List (String × (String × Nat))

/-- The key `metrics_<timestamp>`. -/
def storeKeyOf (t : Nat) : String := "metrics_" ++ toString t

/-- The save sequence of the upload path (lines 23-28): list keys, sort
descending lexicographically, delete the second key when at least two
exist, then put the new snapshot. -/
def save (t : Nat) (text : String) (s : SnapshotStore) : SnapshotStore :=
  objInsert
    (match jsSortDesc (objKeys s) with
     | _ :: k1 :: _ => objDelete s k1
     | _ => s)
    (storeKeyOf t) (text, t)

/-- Sequential saves starting from the empty backend. -/
def applySaves (ops : List (Nat × String)) : SnapshotStore :=
  ops.foldl (fun s p => save p.1 p.2 s) []

/-- An HTTP response: status, body, optional content type. -/
structure HttpResponse where
  status : Nat
  body : String
  contentType : Option String := none
deriving DecidableEq, Repr

/-- The 400 body for an invalid upload. -/
def invalidFormatMsg : String :=
  "Invalid metrics file format. Please upload a valid Prometheus metrics file."

/-- The POST branch of `handleRequest` (lines 6-34).  `metricsFile` is the
text of the uploaded form field, or `none` when the field is absent;
`render` abstracts `generateDashboard`, whose output no claim concerns. -/
def handlePost (render : ParsedMetrics → Nat → String) (metricsFile : Option String)
    (now : Nat) (store : SnapshotStore) : HttpResponse × SnapshotStore :=
  match metricsFile with
  | none => ({ status := 400, body := "No metrics file uploaded" }, store)
  | some text =>
    if isValidPrometheusMetrics text then
      let metrics := parsePrometheusMetrics text
      let store2 := save now text store
      ({ status := 200, body := render metrics now,
         contentType := some "text/html;charset=UTF-8" }, store2)
    else ({ status := 400, body := invalidFormatMsg }, store)

/-! ### Helper lemmas about the map and store primitives -/

theorem anyKey_iff {α : Type} (m : List (String × α)) (k : String) :
    m.any (fun p => p.1 == k) = true ↔ k ∈ objKeys m := by
  simp [objKeys, List.any_eq_true, List.mem_map]

theorem objKeys_objInsert_of_mem {α : Type} {m : List (String × α)} {k : String} (v : α)
    (h : k ∈ objKeys m) : objKeys (objInsert m k v) = objKeys m := by
  have ha : m.any (fun p => p.1 == k) = true := (anyKey_iff m k).mpr h
  unfold objInsert
  rw [if_pos ha]
  simp only [objKeys, List.map_map]
  refine List.map_congr_left ?_
  intro p _
  by_cases hp : p.1 = k
  · simp [Function.comp, hp]
  · simp [Function.comp, hp]

theorem objKeys_objInsert_of_not_mem {α : Type} {m : List (String × α)} {k : String} (v : α)
    (h : k ∉ objKeys m) : objKeys (objInsert m k v) = objKeys m ++ [k] := by
  have ha : ¬(m.any (fun p => p.1 == k) = true) := fun hc => h ((anyKey_iff m k).mp hc)
  unfold objInsert
  rw [if_neg ha]
  simp [objKeys]

theorem mem_objKeys_objInsert {α : Type} {m : List (String × α)} {k a : String} (v : α) :
    a ∈ objKeys (objInsert m k v) ↔ a = k ∨ a ∈ objKeys m := by
  by_cases h : k ∈ objKeys m
  · rw [objKeys_objInsert_of_mem v h]
    exact ⟨Or.inr, fun x => x.elim (fun e => e ▸ h) id⟩
  · rw [objKeys_objInsert_of_not_mem v h]
    simp [List.mem_append, or_comm]

theorem length_objInsert_le {α : Type} (m : List (String × α)) (k : String) (v : α) :
    (objInsert m k v).length ≤ m.length + 1 := by
  unfold objInsert
  split
  · simp
  · simp

theorem length_objInsert_of_not_mem {α : Type} {m : List (String × α)} {k : String} (v : α)
    (h : k ∉ objKeys m) : (objInsert m k v).length = m.length + 1 := by
  have ha : ¬(m.any (fun p => p.1 == k) = true) := fun hc => h ((anyKey_iff m k).mp hc)
  unfold objInsert
  rw [if_neg ha]
  simp

theorem mem_objKeys_objDelete {α : Type} {m : List (String × α)} {k a : String} :
    a ∈ objKeys (objDelete m k) ↔ a ∈ objKeys m ∧ a ≠ k := by
  simp only [objDelete, objKeys, List.mem_map, List.mem_filter, Bool.not_eq_eq_eq_not,
    Bool.not_true, beq_eq_false_iff_ne, ne_eq]
  constructor
  · rintro ⟨p, ⟨hm, hk⟩, rfl⟩
    exact ⟨⟨p, hm, rfl⟩, hk⟩
  · rintro ⟨⟨p, hm, rfl⟩, hne⟩
    exact ⟨p, ⟨hm, hne⟩, rfl⟩

theorem length_objDelete_lt {α : Type} {m : List (String × α)} {k : String}
    (h : k ∈ objKeys m) : (objDelete m k).length < m.length := by
  obtain ⟨p, hm, hp⟩ := List.mem_map.mp h
  refine List.length_filter_lt_length_iff_exists.mpr ⟨p, hm, ?_⟩
  simp [hp]

theorem length_filter_nodup {l : List String} {k : String} (hn : l.Nodup) (h : k ∈ l) :
    (l.filter (fun a => !(a == k))).length = l.length - 1 := by
  induction l with
  | nil => cases h
  | cons a t ih =>
    rcases List.nodup_cons.mp hn with ⟨hna, hnt⟩
    by_cases hak : a = k
    · subst hak
      have ht : t.filter (fun x => !(x == a)) = t := by
        refine List.filter_eq_self.mpr ?_
        intro x hx
        simp only [Bool.not_eq_eq_eq_not, Bool.not_true, beq_eq_false_iff_ne, ne_eq]
        exact fun e => hna (e ▸ hx)
      simp [List.filter_cons, ht]
    · have hkt : k ∈ t := by
        rcases List.mem_cons.mp h with h1 | h1
        · exact absurd h1.symm hak
        · exact h1
      have hpos : 0 < t.length := List.length_pos.mpr (List.ne_nil_of_mem hkt)
      have hae : (a == k) = false := beq_eq_false_iff_ne.mpr hak
      simp only [List.filter_cons, hae, Bool.not_false, if_true, List.length_cons, ih hnt hkt]
      omega

theorem length_objDelete_eq {α : Type} (m : List (String × α)) (k : String) :
    (objDelete m k).length = ((objKeys m).filter (fun a => !(a == k))).length := by
  induction m with
  | nil => rfl
  | cons p t ih =>
    simp only [objDelete, objKeys, List.map_cons, List.filter_cons] at *
    cases hp : (p.1 == k) <;> simp [hp, ih]

theorem length_objDelete_of_nodup {α : Type} {m : List (String × α)} {k : String}
    (hn : (objKeys m).Nodup) (h : k ∈ objKeys m) :
    (objDelete m k).length = m.length - 1 := by
  rw [length_objDelete_eq, length_filter_nodup hn h]
  simp [objKeys]

theorem nodup_objKeys_objInsert {α : Type} {m : List (String × α)} (k : String) (v : α)
    (hn : (objKeys m).Nodup) : (objKeys (objInsert m k v)).Nodup := by
  by_cases h : k ∈ objKeys m
  · rw [objKeys_objInsert_of_mem v h]
    exact hn
  · rw [objKeys_objInsert_of_not_mem v h]
    simp [List.nodup_append, hn, h]

theorem nodup_objKeys_objDelete {α : Type} {m : List (String × α)} (k : String)
    (hn : (objKeys m).Nodup) : (objKeys (objDelete m k)).Nodup := by
  have hs : (objDelete m k).Sublist m := List.filter_sublist m
  have hs2 : ((objDelete m k).map (fun p => p.1)).Sublist (m.map (fun p => p.1)) :=
    hs.map (fun p => p.1)
  exact hn.sublist hs2

/-! ### The JS sort is a permutation -/

theorem perm_orderedInsertJs (a : String) (l : List String) :
    List.Perm (orderedInsertJs a l) (a :: l) := by
  induction l with
  | nil => exact List.Perm.refl _
  | cons b t ih =>
    unfold orderedInsertJs
    by_cases h : jsLe a b = true
    · rw [if_pos h]
    · rw [if_neg h]
      exact (ih.cons b).trans (List.Perm.swap a b t)

theorem perm_jsSortAsc (l : List String) : List.Perm (jsSortAsc l) l := by
  induction l with
  | nil => exact List.Perm.refl _
  | cons a t ih => exact (perm_orderedInsertJs a (jsSortAsc t)).trans (ih.cons a)

theorem perm_jsSortDesc (l : List String) : List.Perm (jsSortDesc l) l :=
  (List.reverse_perm _).trans (perm_jsSortAsc l)

/-! ### Invariants of the save sequence -/

theorem length_objKeys {α : Type} (m : List (String × α)) :
    (objKeys m).length = m.length := List.length_map _ _

theorem length_save_le (t : Nat) (x : String) (s : SnapshotStore)
    (h : s.length ≤ 2) : (save t x s).length ≤ 2 := by
  unfold save
  cases hs : jsSortDesc (objKeys s) with
  | nil =>
    dsimp only
    have h0 : s.length = 0 := by
      have := (perm_jsSortDesc (objKeys s)).length_eq
      rw [hs] at this
      simpa [length_objKeys] using this.symm
    have := length_objInsert_le s (storeKeyOf t) (x, t)
    omega
  | cons k0 tl =>
    cases tl with
    | nil =>
      dsimp only
      have h1 : s.length = 1 := by
        have := (perm_jsSortDesc (objKeys s)).length_eq
        rw [hs] at this
        simpa [length_objKeys] using this.symm
      have := length_objInsert_le s (storeKeyOf t) (x, t)
      omega
    | cons k1 tl2 =>
      dsimp only
      have hk1 : k1 ∈ objKeys s := by
        refine (perm_jsSortDesc (objKeys s)).subset ?_
        rw [hs]
        simp
      have hlt := length_objDelete_lt (m := s) hk1
      have := length_objInsert_le (objDelete s k1) (storeKeyOf t) (x, t)
      omega

theorem nodup_objKeys_save (t : Nat) (x : String) (s : SnapshotStore)
    (hn : (objKeys s).Nodup) : (objKeys (save t x s)).Nodup := by
  unfold save
  cases hs : jsSortDesc (objKeys s) with
  | nil => exact nodup_objKeys_objInsert _ _ hn
  | cons k0 tl =>
    cases tl with
    | nil => exact nodup_objKeys_objInsert _ _ hn
    | cons k1 tl2 => exact nodup_objKeys_objInsert _ _ (nodup_objKeys_objDelete k1 hn)

theorem foldl_save_inv (ops : List (Nat × String)) (s : SnapshotStore)
    (h : s.length ≤ 2) (hn : (objKeys s).Nodup) :
    (ops.foldl (fun s p => save p.1 p.2 s) s).length ≤ 2 ∧
      (objKeys (ops.foldl (fun s p => save p.1 p.2 s) s)).Nodup := by
  induction ops generalizing s with
  | nil => exact ⟨h, hn⟩
  | cons op t ih =>
    exact ih (save op.1 op.2 s) (length_save_le op.1 op.2 s h)
      (nodup_objKeys_save op.1 op.2 s hn)

theorem nodup_objKeys_applySaves (ops : List (Nat × String)) :
    (objKeys (applySaves ops)).Nodup :=
  (foldl_save_inv ops [] (by simp) (by simp [objKeys])).2

theorem length_save_of_fresh (t : Nat) (x : String) (s : SnapshotStore)
    (h2 : s.length = 2) (hn : (objKeys s).Nodup)
    (hf : storeKeyOf t ∉ objKeys s) : (save t x s).length = 2 := by
  have hk : (objKeys s).length = 2 := by simpa [length_objKeys] using h2
  have hs2 : (jsSortDesc (objKeys s)).length = 2 := by
    rw [(perm_jsSortDesc (objKeys s)).length_eq]
    exact hk
  obtain ⟨k0, k1, hs⟩ := List.length_eq_two.mp hs2
  have hk1 : k1 ∈ objKeys s := by
    refine (perm_jsSortDesc (objKeys s)).subset ?_
    rw [hs]
    simp
  have hd : (objDelete s k1).length = 1 := by
    rw [length_objDelete_of_nodup hn hk1, h2]
  have hfd : storeKeyOf t ∉ objKeys (objDelete s k1) := fun hmem =>
    hf (mem_objKeys_objDelete.mp hmem).1
  unfold save
  rw [hs]
  dsimp only
  rw [length_objInsert_of_not_mem (x, t) hfd, hd]

/-! ### Helper lemmas about line processing -/

theorem jsSplitWsM_ne_nil (l : List Char) (m : Option (List Char)) :
    jsSplitWsM l m ≠ [] := by
  induction l generalizing m with
  | nil => cases m <;> simp [jsSplitWsM]
  | cons c cs ih =>
    cases m with
    | some acc =>
      by_cases hc : isJsWs c = true
      · simp [jsSplitWsM, hc]
      · simp [jsSplitWsM, hc]
        exact ih (some (c :: acc))
    | none =>
      by_cases hc : isJsWs c = true
      · simp [jsSplitWsM, hc]
        exact ih none
      · simp [jsSplitWsM, hc]
        exact ih (some [c])

theorem processLine_eq_dispatch (m : ParsedMetrics) (line nameLabels value : String)
    (rest : List String) (name : String) (lstr : Option String)
    (hhash : jsStartsWithHash line = false)
    (hsplit : jsSplitWs line = nameLabels :: value :: rest)
    (h1 : nameLabels ≠ "") (h2 : value ≠ "")
    (hmatch : jsNameMatch nameLabels = some (name, lstr)) :
    processLine m line = dispatch m name lstr value := by
  have e1 : (nameLabels == "") = false := beq_eq_false_iff_ne.mpr h1
  have e2 : (value == "") = false := beq_eq_false_iff_ne.mpr h2
  unfold processLine
  rw [hhash, hsplit]
  dsimp only
  rw [e1, e2, hmatch]
  rfl

theorem processLine_skip_hash (m : ParsedMetrics) (line : String)
    (h : jsStartsWithHash line = true) : processLine m line = m := by
  unfold processLine
  rw [h]
  rfl

theorem processLine_skip_short (m : ParsedMetrics) (line : String)
    (h : (jsSplitWs line).length < 2) : processLine m line = m := by
  unfold processLine
  by_cases hh : jsStartsWithHash line = true
  · rw [hh]
    rfl
  · rw [Bool.not_eq_true] at hh
    rw [hh]
    cases hs : jsSplitWs line with
    | nil => rfl
    | cons a t =>
      cases t with
      | nil => rfl
      | cons b t2 =>
        rw [hs] at h
        simp at h
        omega

theorem processLine_skip_empty_token (m : ParsedMetrics) (line nameLabels value : String)
    (rest : List String) (hsplit : jsSplitWs line = nameLabels :: value :: rest)
    (h : nameLabels = "" ∨ value = "") : processLine m line = m := by
  unfold processLine
  by_cases hh : jsStartsWithHash line = true
  · rw [hh]
    rfl
  · rw [Bool.not_eq_true] at hh
    rw [hh, hsplit]
    dsimp only
    have : (nameLabels == "" || value == "") = true := by
      rcases h with h | h <;> simp [h]
    rw [this]
    rfl

theorem processLine_skip_nomatch (m : ParsedMetrics) (line nameLabels value : String)
    (rest : List String) (hsplit : jsSplitWs line = nameLabels :: value :: rest)
    (hmatch : jsNameMatch nameLabels = none) : processLine m line = m := by
  unfold processLine
  by_cases hh : jsStartsWithHash line = true
  · rw [hh]
    rfl
  · rw [Bool.not_eq_true] at hh
    rw [hh, hsplit]
    dsimp only
    by_cases he : (nameLabels == "" || value == "") = true
    · rw [he]
      rfl
    · rw [Bool.not_eq_true] at he
      rw [he, hmatch]
      rfl

/-! ### Key classification invariants of the parser -/

theorem dispatch_counters_keys (m : ParsedMetrics) (name : String) (lstr : Option String)
    (value : String) (k : String)
    (hk : k ∈ objKeys (dispatch m name lstr value).counters) :
    k ∈ objKeys m.counters ∨ (strIncludes k "total" || strIncludes k "errors") = true := by
  unfold dispatch at hk
  split_ifs at hk with h1 h2 h3 h4
  · exact Or.inl hk
  · exact Or.inl hk
  · exact Or.inl hk
  · dsimp only at hk
    rcases (mem_objKeys_objInsert _).mp hk with h | h
    · subst h
      exact Or.inr h4
    · exact Or.inl h
  · exact Or.inl hk

theorem dispatch_gauges_keys (m : ParsedMetrics) (name : String) (lstr : Option String)
    (value : String) (k : String)
    (hk : k ∈ objKeys (dispatch m name lstr value).gauges) :
    k ∈ objKeys m.gauges ∨ (strIncludes k "total" || strIncludes k "errors") = false := by
  unfold dispatch at hk
  split_ifs at hk with h1 h2 h3 h4
  · exact Or.inl hk
  · exact Or.inl hk
  · exact Or.inl hk
  · exact Or.inl hk
  · dsimp only at hk
    rcases (mem_objKeys_objInsert _).mp hk with h | h
    · subst h
      exact Or.inr (by simpa using h4)
    · exact Or.inl h

theorem processLine_counters_sub (m : ParsedMetrics) (line : String) (k : String)
    (hk : k ∈ objKeys (processLine m line).counters) :
    k ∈ objKeys m.counters ∨ (strIncludes k "total" || strIncludes k "errors") = true := by
  by_cases hh : jsStartsWithHash line = true
  · rw [processLine_skip_hash m line hh] at hk
    exact Or.inl hk
  · rw [Bool.not_eq_true] at hh
    cases hs : jsSplitWs line with
    | nil =>
      rw [processLine_skip_short m line (by rw [hs]; simp)] at hk
      exact Or.inl hk
    | cons a t =>
      cases t with
      | nil =>
        rw [processLine_skip_short m line (by rw [hs]; simp)] at hk
        exact Or.inl hk
      | cons b t2 =>
        by_cases he : a = "" ∨ b = ""
        · rw [processLine_skip_empty_token m line a b t2 hs he] at hk
          exact Or.inl hk
        · push_neg at he
          cases hm : jsNameMatch a with
          | none =>
            rw [processLine_skip_nomatch m line a b t2 hs hm] at hk
            exact Or.inl hk
          | some p =>
            obtain ⟨nm, ls⟩ := p
            rw [processLine_eq_dispatch m line a b t2 nm ls hh hs he.1 he.2 hm] at hk
            exact dispatch_counters_keys m nm ls b k hk

theorem processLine_gauges_sub (m : ParsedMetrics) (line : String) (k : String)
    (hk : k ∈ objKeys (processLine m line).gauges) :
    k ∈ objKeys m.gauges ∨ (strIncludes k "total" || strIncludes k "errors") = false := by
  by_cases hh : jsStartsWithHash line = true
  · rw [processLine_skip_hash m line hh] at hk
    exact Or.inl hk
  · rw [Bool.not_eq_true] at hh
    cases hs : jsSplitWs line with
    | nil =>
      rw [processLine_skip_short m line (by rw [hs]; simp)] at hk
      exact Or.inl hk
    | cons a t =>
      cases t with
      | nil =>
        rw [processLine_skip_short m line (by rw [hs]; simp)] at hk
        exact Or.inl hk
      | cons b t2 =>
        by_cases he : a = "" ∨ b = ""
        · rw [processLine_skip_empty_token m line a b t2 hs he] at hk
          exact Or.inl hk
        · push_neg at he
          cases hm : jsNameMatch a with
          | none =>
            rw [processLine_skip_nomatch m line a b t2 hs hm] at hk
            exact Or.inl hk
          | some p =>
            obtain ⟨nm, ls⟩ := p
            rw [processLine_eq_dispatch m line a b t2 nm ls hh hs he.1 he.2 hm] at hk
            exact dispatch_gauges_keys m nm ls b k hk

theorem foldl_processLine_inv (lines : List String) (m : ParsedMetrics)
    (hc : ∀ k ∈ objKeys m.counters, (strIncludes k "total" || strIncludes k "errors") = true)
    (hg : ∀ k ∈ objKeys m.gauges, (strIncludes k "total" || strIncludes k "errors") = false) :
    (∀ k ∈ objKeys (lines.foldl processLine m).counters,
        (strIncludes k "total" || strIncludes k "errors") = true) ∧
      ∀ k ∈ objKeys (lines.foldl processLine m).gauges,
        (strIncludes k "total" || strIncludes k "errors") = false := by
  induction lines generalizing m with
  | nil => exact ⟨hc, hg⟩
  | cons l t ih =>
    apply ih
    · intro k hk
      rcases processLine_counters_sub m l k hk with h | h
      · exact hc k h
      · exact h
    · intro k hk
      rcases processLine_gauges_sub m l k hk with h | h
      · exact hg k h
      · exact h

/-- The histogram entry the C8 permutations must all produce. -/
def fooHistogramExpected : ParsedMetrics :=
  { gauges := [], counters := [], histograms := [("foo", { buckets := [{ le := some "0.5", count := JSNum.num 3 }], sum := some (JSNum.num 10), count := some (JSNum.num 4) })] }

/-! ### The claims -/

/-- C7: `parse` is total (it is a Lean function) and never rejects a line:
comment lines (starting with `#`) leave the model unchanged, lines whose
whitespace split lacks a name/labels token or a value token (fewer than two
fields, or an empty field) leave the model unchanged, and a non-numeric
value token converts to NaN and is stored silently (here `foo abc` stores
gauge `foo` with value NaN). -/
theorem C7_parse_never_fails :
    (∀ (m : ParsedMetrics) (line : String), jsStartsWithHash line = true → processLine m line = m) ∧
    (∀ (m : ParsedMetrics) (line : String), (jsSplitWs line).length < 2 → processLine m line = m) ∧
    (∀ (m : ParsedMetrics) (line nameLabels value : String) (rest : List String),
      jsSplitWs line = nameLabels :: value :: rest → nameLabels = "" ∨ value = "" →
      processLine m line = m) ∧
    jsNumber "abc" = JSNum.nan ∧
    parsePrometheusMetrics "foo abc" = { gauges := [("foo", { value := JSNum.nan, labels := [] })], counters := [], histograms := [] } := by
  refine ⟨processLine_skip_hash, processLine_skip_short, ?_, by decide, by decide⟩
  intro m line nl v rest hs h
  exact processLine_skip_empty_token m line nl v rest hs h

/-- C7 witness: the skip clauses evaluated at a comment line and at a
one-token line. -/
theorem C7_witness :
    processLine { gauges := [], counters := [], histograms := [] } "# comment" = { gauges := [], counters := [], histograms := [] } ∧
    processLine { gauges := [], counters := [], histograms := [] } "lonely" = { gauges := [], counters := [], histograms := [] } :=
  ⟨C7_parse_never_fails.1 _ "# comment" (by decide),
   C7_parse_never_fails.2.1 _ "lonely" (by decide)⟩

/-- C8: parsing `foo_bucket{le="0.5"} 3`, `foo_sum 10`, `foo_count 4` in
any of the six line orders yields the histogram entry for `foo` with
buckets `[{le: "0.5", count: 3}]`, sum 10, count 4. -/
theorem C8_histogram_order_independent :
    parsePrometheusMetrics "foo_bucket\x7ble=\"0.5\"\x7d 3\nfoo_sum 10\nfoo_count 4" = fooHistogramExpected ∧
    parsePrometheusMetrics "foo_bucket\x7ble=\"0.5\"\x7d 3\nfoo_count 4\nfoo_sum 10" = fooHistogramExpected ∧
    parsePrometheusMetrics "foo_sum 10\nfoo_bucket\x7ble=\"0.5\"\x7d 3\nfoo_count 4" = fooHistogramExpected ∧
    parsePrometheusMetrics "foo_sum 10\nfoo_count 4\nfoo_bucket\x7ble=\"0.5\"\x7d 3" = fooHistogramExpected ∧
    parsePrometheusMetrics "foo_count 4\nfoo_bucket\x7ble=\"0.5\"\x7d 3\nfoo_sum 10" = fooHistogramExpected ∧
    parsePrometheusMetrics "foo_count 4\nfoo_sum 10\nfoo_bucket\x7ble=\"0.5\"\x7d 3" = fooHistogramExpected :=
  ⟨by decide, by decide, by decide, by decide, by decide, by decide⟩

/-- C9: a POST without the `metricsFile` field answers 400 with body
exactly `No metrics file uploaded`; a POST whose text fails validation
answers 400 with the fixed invalid-format body; in both cases the store
is returned unchanged (no delete or put happens). -/
theorem C9_upload_errors (render : ParsedMetrics → Nat → String) (now : Nat) (store : SnapshotStore) :
    handlePost render none now store = ({ status := 400, body := "No metrics file uploaded", contentType := none }, store) ∧
    ∀ text : String, isValidPrometheusMetrics text = false →
      handlePost render (some text) now store = ({ status := 400, body := invalidFormatMsg, contentType := none }, store) := by
  constructor
  · rfl
  · intro text hv
    unfold handlePost
    dsimp only
    rw [hv]
    rfl

/-- C9 witness: the invalid-upload clause evaluated at the text
`garbage`, which fails validation. -/
theorem C9_witness :
    handlePost (fun _ _ => "") (some "garbage") 0 [] = ({ status := 400, body := invalidFormatMsg, contentType := none }, []) :=
  (C9_upload_errors (fun _ _ => "") 0 []).2 "garbage" (by decide)

/-- C10: a line beginning with a whitespace character splits with an empty
first token and is skipped by `parse`; yet the validator trims, so
" foo 1" is accepted by `isValid` while `parse` of it yields an empty
model. -/
theorem C10_leading_ws_skipped :
    (∀ (m : ParsedMetrics) (line : String) (c : Char) (cs : List Char),
      line.data = c :: cs → isJsWs c = true →
      (jsSplitWs line).head? = some "" ∧ processLine m line = m) ∧
    isValidPrometheusMetrics " foo 1" = true ∧
    parsePrometheusMetrics " foo 1" = { gauges := [], counters := [], histograms := [] } := by
  refine ⟨?_, by decide, by decide⟩
  intro m line c cs hdata hws
  have hsplit : ∃ t rest, jsSplitWs line = "" :: t :: rest := by
    unfold jsSplitWs
    rw [hdata]
    cases hcs : jsSplitWsM cs none with
    | nil => exact absurd hcs (jsSplitWsM_ne_nil cs none)
    | cons t rest =>
      refine ⟨t, rest, ?_⟩
      simp [jsSplitWsM, hws, hcs]
  obtain ⟨t, rest, hsp⟩ := hsplit
  refine ⟨by rw [hsp]; rfl, ?_⟩
  exact processLine_skip_empty_token m line "" t rest hsp (Or.inl rfl)

/-- C10 witness: the skip clause evaluated at the line " x 1". -/
theorem C10_witness :
    (jsSplitWs " x 1").head? = some "" ∧
    processLine { gauges := [], counters := [], histograms := [] } " x 1" = { gauges := [], counters := [], histograms := [] } :=
  C10_leading_ws_skipped.1 { gauges := [], counters := [], histograms := [] } " x 1" ' ' ['x', ' ', '1'] (by decide) (by decide)

/-- C1 counterexample: the claim says a line is treated as a histogram
bucket line if and only if its name ends with `_bucket`, and that the
suffix is stripped.  The name `my_bucket_size` does not end with
`_bucket`, yet the code treats the line as a bucket line (substring test)
and keys it by `my_size` (first-occurrence removal, not suffix
stripping): nothing lands in gauges or counters. -/
theorem C1_counterexample :
    strEndsWith "my_bucket_size" "_bucket" = false ∧
    parsePrometheusMetrics "my_bucket_size 3" = { gauges := [], counters := [], histograms := [("my_size", { buckets := [{ le := none, count := JSNum.num 3 }], sum := none, count := none })] } :=
  ⟨by decide, by decide⟩

/-- C1 (amended): for every processed metric line, the line is treated as
a histogram bucket line if and only if its name CONTAINS `_bucket` (the
first occurrence is removed to obtain the base name, and
`{le: labels['le'], count: numericValue}` is appended to that histogram's
bucket list, auto-creating the entry); it is treated as a histogram
sum/count line if and only if it does not contain `_bucket` but contains
`_sum` or `_count` (a trailing `_sum`/`_count` is stripped for the base
name — a name merely containing the substring keeps its full name — and
the field set is `sum` exactly when the name contains `_sum`); otherwise
the histograms mapping is untouched. -/
theorem C1_histogram_dispatch (m : ParsedMetrics) (line nameLabels value : String)
    (rest : List String) (name : String) (lstr : Option String)
    (hhash : jsStartsWithHash line = false)
    (hsplit : jsSplitWs line = nameLabels :: value :: rest)
    (h1 : nameLabels ≠ "") (h2 : value ≠ "")
    (hmatch : jsNameMatch nameLabels = some (name, lstr)) :
    (strIncludes name "_bucket" = true →
      processLine m line = { m with histograms := objInsert m.histograms (jsRemoveFirst name "_bucket") (bucketAppend (histAt m (jsRemoveFirst name "_bucket")) (labelGet (labelsOf lstr) "le") (jsNumber value)) }) ∧
    (strIncludes name "_bucket" = false →
      (strIncludes name "_sum" || strIncludes name "_count") = true →
      processLine m line = { m with histograms := objInsert m.histograms (stripHistSuffix name) (if strIncludes name "_sum" then setHistSum (histAt m (stripHistSuffix name)) (jsNumber value) else setHistCount (histAt m (stripHistSuffix name)) (jsNumber value)) }) ∧
    (strIncludes name "_bucket" = false →
      (strIncludes name "_sum" || strIncludes name "_count") = false →
      (processLine m line).histograms = m.histograms) := by
  have hpd := processLine_eq_dispatch m line nameLabels value rest name lstr hhash hsplit h1 h2 hmatch
  refine ⟨?_, ?_, ?_⟩
  · intro hb
    rw [hpd]
    unfold dispatch
    rw [if_pos hb]
  · intro hb hsc
    rw [hpd]
    unfold dispatch
    rw [if_neg (by simp [hb]), if_pos hsc]
  · intro hb hsc
    rw [hpd]
    unfold dispatch
    rw [if_neg (by simp [hb]), if_neg (by simp [hsc])]
    split_ifs <;> rfl

/-- C1 witness: the bucket clause evaluated at the line `req_bucket 2`. -/
theorem C1_witness :
    processLine { gauges := [], counters := [], histograms := [] } "req_bucket 2" = { gauges := [], counters := [], histograms := [("req", { buckets := [{ le := none, count := JSNum.num 2 }], sum := none, count := none })] } := by
  have h := (C1_histogram_dispatch { gauges := [], counters := [], histograms := [] } "req_bucket 2" "req_bucket" "2" [] "req_bucket" none (by decide) (by decide) (by decide) (by decide) (by decide)).1 (by decide)
  rw [h]
  decide

/-- C2 counterexample: the claim covers every processed line whose name
does not END with `_bucket`, `_sum` or `_count`, and predicts gauge
storage for `x_sum_bytes` (no `total`/`errors` substring).  The code
instead routes the line to the histogram sum/count branch because the
name CONTAINS `_sum`, so gauges and counters stay empty. -/
theorem C2_counterexample :
    strEndsWith "x_sum_bytes" "_bucket" = false ∧
    strEndsWith "x_sum_bytes" "_sum" = false ∧
    strEndsWith "x_sum_bytes" "_count" = false ∧
    parsePrometheusMetrics "x_sum_bytes 5" = { gauges := [], counters := [], histograms := [("x_sum_bytes", { buckets := [], sum := some (JSNum.num 5), count := none })] } :=
  ⟨by decide, by decide, by decide, by decide⟩

/-- C2 (amended): for every processed metric line whose name contains none
of `_bucket`, `_sum`, `_count` as substrings, the sample is stored as a
counter if and only if the name contains `total` or `errors`, else as a
gauge, keyed by the full name with object overwrite (last-line-wins, shown
on `up 1` then `up 2`); `requests_total` and `request_errors` classify as
counters and `ha_connections` as a gauge. -/
theorem C2_counter_gauge_classification :
    (∀ (m : ParsedMetrics) (line nameLabels value : String) (rest : List String) (name : String) (lstr : Option String),
      jsStartsWithHash line = false →
      jsSplitWs line = nameLabels :: value :: rest →
      nameLabels ≠ "" → value ≠ "" →
      jsNameMatch nameLabels = some (name, lstr) →
      strIncludes name "_bucket" = false →
      (strIncludes name "_sum" || strIncludes name "_count") = false →
      ((strIncludes name "total" || strIncludes name "errors") = true →
        processLine m line = { m with counters := objInsert m.counters name { value := jsNumber value, labels := labelsOf lstr } }) ∧
      ((strIncludes name "total" || strIncludes name "errors") = false →
        processLine m line = { m with gauges := objInsert m.gauges name { value := jsNumber value, labels := labelsOf lstr } })) ∧
    objKeys (parsePrometheusMetrics "requests_total 7").counters = ["requests_total"] ∧
    objKeys (parsePrometheusMetrics "request_errors 2").counters = ["request_errors"] ∧
    objKeys (parsePrometheusMetrics "ha_connections 3").gauges = ["ha_connections"] ∧
    parsePrometheusMetrics "up 1\nup 2" = { gauges := [("up", { value := JSNum.num 2, labels := [] })], counters := [], histograms := [] } := by
  refine ⟨?_, by decide, by decide, by decide, by decide⟩
  intro m line nl v rest name lstr hhash hsplit h1 h2 hmatch hb hsc
  have hpd := processLine_eq_dispatch m line nl v rest name lstr hhash hsplit h1 h2 hmatch
  constructor
  · intro ht
    rw [hpd]
    unfold dispatch
    rw [if_neg (by simp [hb]), if_neg (by simp [hsc]), if_pos ht]
  · intro ht
    rw [hpd]
    unfold dispatch
    rw [if_neg (by simp [hb]), if_neg (by simp [hsc]), if_neg (by simp [ht])]

/-- C2 witness: the counter clause evaluated at the line `tcp_total 9`. -/
theorem C2_witness :
    processLine { gauges := [], counters := [], histograms := [] } "tcp_total 9" = { gauges := [], counters := [("tcp_total", { value := JSNum.num 9, labels := [] })], histograms := [] } := by
  have h := (C2_counter_gauge_classification.1 { gauges := [], counters := [], histograms := [] } "tcp_total 9" "tcp_total" "9" [] "tcp_total" none (by decide) (by decide) (by decide) (by decide) (by decide) (by decide) (by decide)).1 (by decide)
  rw [h]
  decide

/-- C3 counterexample: the claim says every metric name appears in at most
one of the three mappings.  Parsing `foo 1` together with
`foo_bucket{le="1"} 2` puts the key `foo` in both gauges and
histograms. -/
theorem C3_counterexample :
    objKeys (parsePrometheusMetrics "foo 1\nfoo_bucket\x7ble=\"1\"\x7d 2").gauges = ["foo"] ∧
    objKeys (parsePrometheusMetrics "foo 1\nfoo_bucket\x7ble=\"1\"\x7d 2").histograms = ["foo"] :=
  ⟨by decide, by decide⟩

/-- C3 (amended): in every parse result the gauges and counters mappings
are key-disjoint (classification is a function of the name); a histogram
base name may additionally coincide with a gauge or counter key. -/
theorem C3_gauges_counters_disjoint (s k : String)
    (h : k ∈ objKeys (parsePrometheusMetrics s).counters) :
    k ∉ objKeys (parsePrometheusMetrics s).gauges := by
  intro hg
  unfold parsePrometheusMetrics at h hg
  have inv := foldl_processLine_inv (jsSplitLines s) { gauges := [], counters := [], histograms := [] }
    (by intro a ha; simp [objKeys] at ha) (by intro a ha; simp [objKeys] at ha)
  have hc := inv.1 k h
  have hgf := inv.2 k hg
  rw [hc] at hgf
  exact Bool.noConfusion hgf

/-- C3 witness: the disjointness clause evaluated at the counter
`conn_total`. -/
theorem C3_witness :
    "conn_total" ∉ objKeys (parsePrometheusMetrics "conn_total 4").gauges :=
  C3_gauges_counters_disjoint "conn_total 4" "conn_total" (by decide)

/-- C4: starting from an empty backend, any sequence of saves leaves at
most 2 snapshots stored; and saving a 3rd snapshot (under a key not
already present, as a fresh `Date.now()` timestamp produces) when 2 are
stored leaves exactly 2 entries. -/
theorem C4_store_capacity :
    (∀ ops : List (Nat × String), (applySaves ops).length ≤ 2) ∧
    (∀ (ops : List (Nat × String)) (t : Nat) (x : String),
      (applySaves ops).length = 2 →
      storeKeyOf t ∉ objKeys (applySaves ops) →
      (save t x (applySaves ops)).length = 2) := by
  constructor
  · intro ops
    exact (foldl_save_inv ops [] (by simp) (by simp [objKeys])).1
  · intro ops t x h2 hf
    exact length_save_of_fresh t x (applySaves ops) h2 (nodup_objKeys_applySaves ops) hf

/-- C4 witness: saving a third snapshot onto the two produced by saves at
timestamps 1 and 2 leaves exactly two entries. -/
theorem C4_witness :
    (save 3 "c3" (applySaves [(1, "c1"), (2, "c2")])).length = 2 :=
  C4_store_capacity.2 [(1, "c1"), (2, "c2")] 3 "c3" (by decide) (by decide)

/-- C5: when at least two keys exist, `save` deletes exactly the second
key of the descending lexicographic string sort before inserting
`metrics_<timestamp>`: afterwards a key is stored iff it is the new key
or an old key other than that second one.  The sort is lexicographic on
strings and not numeric: `metrics_1000` sorts AFTER `metrics_999`
descending, so it is the one deleted despite being numerically newer. -/
theorem C5_save_deletes_second_newest :
    (∀ (s : SnapshotStore) (t : Nat) (x : String) (k0 k1 : String) (rest : List String),
      jsSortDesc (objKeys s) = k0 :: k1 :: rest →
      ∀ k : String, k ∈ objKeys (save t x s) ↔ k = storeKeyOf t ∨ (k ∈ objKeys s ∧ k ≠ k1)) ∧
    jsSortDesc ["metrics_1000", "metrics_999"] = ["metrics_999", "metrics_1000"] := by
  constructor
  · intro s t x k0 k1 rest hs k
    unfold save
    rw [hs]
    dsimp only
    rw [mem_objKeys_objInsert, mem_objKeys_objDelete]
  · decide

/-- C5 witness: on a store holding `metrics_999` and `metrics_1000`, the
save deletes `metrics_1000` (second in the descending string sort) and
keeps `metrics_999`. -/
theorem C5_witness :
    "metrics_999" ∈ objKeys (save 1500 "x" [("metrics_999", ("a", 999)), ("metrics_1000", ("b", 1000))]) ∧
    "metrics_1000" ∉ objKeys (save 1500 "x" [("metrics_999", ("a", 999)), ("metrics_1000", ("b", 1000))]) := by
  have h := C5_save_deletes_second_newest.1 [("metrics_999", ("a", 999)), ("metrics_1000", ("b", 1000))] 1500 "x" "metrics_999" "metrics_1000" [] (by decide)
  constructor
  · exact (h "metrics_999").mpr (Or.inr ⟨by decide, by decide⟩)
  · intro hmem
    rcases (h "metrics_1000").mp hmem with hc | hc
    · exact absurd hc (by decide)
    · exact hc.2 rfl

/-- C6 counterexample: the claim characterises `isValid` as: some line of
the input starts with `#` or matches the pattern.  The input " foo 1" has
a single line that neither starts with `#` nor matches the anchored
pattern (it begins with a space), yet `isValid` returns true, because the
implementation trims the whole text and each line before testing. -/
theorem C6_counterexample :
    isValidPrometheusMetrics " foo 1" = true ∧ claimIsValid " foo 1" = false :=
  ⟨by decide, by decide⟩

/-- C6 (amended): `isValid` returns true iff some line of the
whole-text-trimmed input either starts with `#` or, after trimming that
line, matches the identifier/label-block/number pattern; it never throws
(it is a total function); and `isValid("") = false`,
`isValid("# HELP x\nfoo 1") = true`, `isValid("garbage\n") = false`. -/
theorem C6_validator_characterization :
    (∀ s : String, isValidPrometheusMetrics s = true ↔
      ∃ l ∈ jsSplitLines (jsTrim s), jsStartsWithHash l = true ∨ metricLineTest (jsTrim l) = true) ∧
    isValidPrometheusMetrics "" = false ∧
    isValidPrometheusMetrics "# HELP x\nfoo 1" = true ∧
    isValidPrometheusMetrics "garbage\n" = false := by
  refine ⟨?_, by decide, by decide, by decide⟩
  intro s
  simp only [isValidPrometheusMetrics, List.any_eq_true, Bool.or_eq_true]

end MetricsDash
